import Mathlib

/-!
Verification of the PPO training pipeline and digital-twin validator in
robotics-brain/training/isaac_lab_training.py.

Real tensors are shallow-embedded over ℚ: elementwise tensor operations
become operations on rationals or on lists of rationals (one entry per
environment instance, or one entry per flattened transition).  Line numbers
in the doc comments refer to isaac_lab_training.py.
-/

namespace IsaacLab

/-- torch.clamp x lo hi: clip x into the closed interval from lo to hi
(max with lo, then min with hi). -/
def clamp (x lo hi : ℚ) : ℚ := min (max x lo) hi

/-- torch.mean on a flattened tensor: sum divided by length (0 on the empty
list, since 0 / 0 = 0 in ℚ). -/
def mean (xs : List ℚ) : ℚ := xs.sum / xs.length

/-! ### PPO surrogate loss (update_policy, lines 296-299) -/

/-- Probability ratio (line 296): ratio = (new_log_probs - batch_old_log_probs).exp().
torch.exp is modelled by the parameter ex. -/
def ratio (ex : ℚ → ℚ) (new_log_prob old_log_prob : ℚ) : ℚ := ex (new_log_prob - old_log_prob)

/-- Unclipped surrogate (line 297): surr1 = ratio * batch_advantages. -/
def surr1 (r adv : ℚ) : ℚ := r * adv

/-- Clipped surrogate (line 298):
surr2 = torch.clamp(ratio, 1 - clip_ratio, 1 + clip_ratio) * batch_advantages. -/
def surr2 (clip_ratio r adv : ℚ) : ℚ := clamp r (1 - clip_ratio) (1 + clip_ratio) * adv

/-- Per-transition surrogate appearing under the mean in line 299:
torch.min(surr1, surr2). -/
def surrogate (clip_ratio r adv : ℚ) : ℚ := min (surr1 r adv) (surr2 clip_ratio r adv)

/-- Policy loss (line 299): policy_loss = -torch.min(surr1, surr2).mean(), over a
minibatch given by parallel lists of new log-probs, old log-probs and advantages. -/
def policy_loss (ex : ℚ → ℚ) (clip_ratio : ℚ)
    (new_log_probs old_log_probs advantages : List ℚ) : ℚ :=
  -(mean (List.zipWith (fun r adv => surrogate clip_ratio r adv)
      (List.zipWith (ratio ex) new_log_probs old_log_probs) advantages))

/-! ### Generalized advantage estimation (compute_gae, lines 237-252) -/

/-- Backward loop of compute_gae (lines 241-251), as structural recursion on the
chronological transition lists: the recursive call processes the later steps and
returns (advantages, returns, gae, next_value) exactly as carried by the loop
(gae starts at 0, next_value starts at last_value). -/
def gaeAux (gamma lam last_value : ℚ) :
    List ℚ → List ℚ → List Bool → List ℚ × List ℚ × ℚ × ℚ
  | r :: rs, v :: vs, d :: ds =>
    let rest := gaeAux gamma lam last_value rs vs ds
    let mask : ℚ := 1 - (if d then 1 else 0)
    let delta := r + gamma * rest.2.2.2 * mask - v
    let gae := delta + gamma * lam * mask * rest.2.2.1
    (gae :: rest.1, (gae + v) :: rest.2.1, gae, v)
  | _, _, _ => ([], [], 0, last_value)

/-- compute_gae (lines 237-252): returns (advantages, returns), given the reward,
value and done buffers and the bootstrap value for the step after the last one. -/
def compute_gae (gamma lam : ℚ) (rewards values : List ℚ) (dones : List Bool)
    (last_value : ℚ) : List ℚ × List ℚ :=
  ((gaeAux gamma lam last_value rewards values dones).1,
   (gaeAux gamma lam last_value rewards values dones).2.1)

/-! ### Advantage normalization (update_policy, lines 270-271) -/

/-- Unbiased sample variance: the square of torch.Tensor.std (correction = 1). -/
def sampleVar (xs : List ℚ) : ℚ :=
  (xs.map (fun x => (x - mean xs) ^ 2)).sum / ((xs.length : ℚ) - 1)

/-- Epsilon guard of line 271 (1e-8). -/
def stdEps : ℚ := 1 / 100000000

/-- Advantage normalization (line 271):
advantages = (advantages - advantages.mean()) / (advantages.std() + 1e-8).
torch.std is the square root of sampleVar, which is in general irrational over ℚ;
it is passed as the parameter std, constrained in the theorems by
std * std = sampleVar advs and 0 ≤ std. -/
def normalize_advantages (advs : List ℚ) (std : ℚ) : List ℚ :=
  advs.map (fun a => (a - mean advs) / (std + stdEps))

/-! ### Minibatch slicing (update_policy, lines 278-283) -/

/-- Start indices of the minibatch loop (line 281): range(0, N, batch_size) in
Python, i.e. k * batch_size for every k below the ceiling of N / batch_size. -/
def minibatch_starts (N batch_size : ℕ) : List ℕ :=
  (List.range ((N + batch_size - 1) / batch_size)).map (fun k => k * batch_size)

/-- Minibatch index ranges actually processed: indices[start:end] (lines 282-283)
truncates end at N, so each slice is [start, min (start + batch_size) N). -/
def minibatch_slices (N batch_size : ℕ) : List (ℕ × ℕ) :=
  (minibatch_starts N batch_size).map (fun s => (s, min (s + batch_size) N))

/-- num_batches (line 278): floor division; it divides the accumulated losses in
lines 328-332, raising ZeroDivisionError when it is zero. -/
def num_batches (N batch_size : ℕ) : ℕ := N / batch_size

/-! ### Rollout buffers and collection (collect_rollout, lines 186-235) -/

structure RolloutBuffers where
  obs_buffer : List (List ℚ)
  actions_buffer : List (List ℚ)
  rewards_buffer : List (List ℚ)
  values_buffer : List (List ℚ)
  log_probs_buffer : List (List ℚ)
  dones_buffer : List (List Bool)
deriving DecidableEq

/-- Buffers at construction (lines 186-191): six empty lists. -/
def emptyBuffers : RolloutBuffers := ⟨[], [], [], [], [], []⟩

/-- Policy as used in the rollout: self.policy(obs) returns
(action, log_prob, value) (line 211), modelled as three functions of the
observation batch (one rational per environment instance). -/
structure PolicyFns where
  act : List ℚ → List ℚ
  log_prob : List ℚ → List ℚ
  value : List ℚ → List ℚ

/-- Environment collaborator: reset (line 205) and step (line 213); step also
receives the step count so that the environment may vary over time. -/
structure EnvFns where
  reset : List ℚ
  step : ℕ → List ℚ → List ℚ × List ℚ × List Bool

/-- One iteration of the collection loop (lines 209-230): append the transition
to all six buffers and advance the observation. -/
def collect_step (pol : PolicyFns) (env : EnvFns) (t : ℕ) (obs : List ℚ)
    (b : RolloutBuffers) : List ℚ × RolloutBuffers :=
  let action := pol.act obs
  let lp := pol.log_prob obs
  let v := pol.value obs
  let s := env.step t action
  (s.1,
   { obs_buffer := b.obs_buffer ++ [obs]
     actions_buffer := b.actions_buffer ++ [action]
     rewards_buffer := b.rewards_buffer ++ [s.2.1]
     values_buffer := b.values_buffer ++ [v]
     log_probs_buffer := b.log_probs_buffer ++ [lp]
     dones_buffer := b.dones_buffer ++ [s.2.2] })

def collect_loop (pol : PolicyFns) (env : EnvFns) :
    ℕ → ℕ → List ℚ → RolloutBuffers → RolloutBuffers
  | 0, _, _, b => b
  | n + 1, t, obs, b =>
    let s := collect_step pol env t obs b
    collect_loop pol env n (t + 1) s.1 s.2

/-- collect_rollout (lines 201-235), restricted to its buffer effect: run the
loop for the given number of steps starting from the reset observation. -/
def collect_rollout (pol : PolicyFns) (env : EnvFns) (steps : ℕ)
    (b : RolloutBuffers) : RolloutBuffers :=
  collect_loop pol env steps 0 env.reset b

/-- Buffer clearing at the end of update_policy (lines 321-326): each of the six
lists becomes empty, whatever it held. -/
def clear_buffers (_ : RolloutBuffers) : RolloutBuffers := ⟨[], [], [], [], [], []⟩

/-- All six buffers hold exactly n entries. -/
def bufferLengths (b : RolloutBuffers) (n : ℕ) : Prop :=
  b.obs_buffer.length = n ∧ b.actions_buffer.length = n ∧
  b.rewards_buffer.length = n ∧ b.values_buffer.length = n ∧
  b.log_probs_buffer.length = n ∧ b.dones_buffer.length = n

/-- Every entry of every buffer covers exactly k environment instances. -/
def entriesCover (b : RolloutBuffers) (k : ℕ) : Prop :=
  (∀ x ∈ b.obs_buffer, x.length = k) ∧ (∀ x ∈ b.actions_buffer, x.length = k) ∧
  (∀ x ∈ b.rewards_buffer, x.length = k) ∧ (∀ x ∈ b.values_buffer, x.length = k) ∧
  (∀ x ∈ b.log_probs_buffer, x.length = k) ∧ (∀ x ∈ b.dones_buffer, x.length = k)

/-- All six buffers are empty. -/
def clearedBuffers (b : RolloutBuffers) : Prop :=
  b.obs_buffer = [] ∧ b.actions_buffer = [] ∧ b.rewards_buffer = [] ∧
  b.values_buffer = [] ∧ b.log_probs_buffer = [] ∧ b.dones_buffer = []

/-- Single-environment identity policy, used for concrete instantiations. -/
def testPolicy : PolicyFns := ⟨fun o => o, fun o => o, fun o => o⟩

/-- Single-environment constant environment, used for concrete instantiations. -/
def testEnv : EnvFns := ⟨[0], fun _ _ => ([0], [0], [false])⟩

/-! ### Checkpointing (save_checkpoint / load_checkpoint, lines 370-393) -/

/-- Trainer state touched by checkpointing (lines 175-196): metrics plus the
policy and optimizer states, whose concrete representations stay abstract. -/
structure TrainerState (P O : Type) where
  epoch : ℕ
  total_steps : ℕ
  best_reward : ℚ
  policy_state : P
  optimizer_state : O

/-- Checkpoint payload of save_checkpoint (lines 375-381). -/
structure Checkpoint (P O : Type) where
  epoch : ℕ
  policy_state : P
  optimizer_state : O
  best_reward : ℚ
  total_steps : ℕ

/-- save_checkpoint (lines 370-383), restricted to the serialized payload. -/
def save_checkpoint {P O : Type} (s : TrainerState P O) : Checkpoint P O :=
  { epoch := s.epoch, policy_state := s.policy_state,
    optimizer_state := s.optimizer_state, best_reward := s.best_reward,
    total_steps := s.total_steps }

/-- load_checkpoint (lines 385-393): restore the five stored fields into the
trainer. -/
def load_checkpoint {P O : Type} (s : TrainerState P O) (c : Checkpoint P O) :
    TrainerState P O :=
  { s with
    policy_state := c.policy_state
    optimizer_state := c.optimizer_state
    epoch := c.epoch
    best_reward := c.best_reward
    total_steps := c.total_steps }

/-! ### Digital twin tester (lines 399-469) -/

/-- One motor command: an optional declared duration ("duration_ms") and an
optional joint target vector ("joint_targets"). -/
structure MotorCommand where
  duration_ms : Option ℚ
  joint_targets : Option (List ℚ)
deriving DecidableEq

/-- Structured content of the error strings appended by test_command_sequence
(lines 436 and 444-446). -/
inductive TwinError where
  | jointOutOfRange (j : ℕ) (target : ℚ)
  | timingMismatch (expected actual : ℚ)
deriving DecidableEq

/-- Validation result record (lines 416-423). -/
structure ValidationResult where
  success : Bool
  timing_valid : Bool
  trajectory_valid : Bool
  safety_valid : Bool
  actual_duration_ms : ℚ
  errors : List TwinError
deriving DecidableEq

/-- cmd.get("duration_ms", 16.67) (line 428): declared duration with the 60 Hz
default. -/
def cmdDuration (cmd : MotorCommand) : ℚ := cmd.duration_ms.getD (1667 / 100)

/-- Inner joint-limit loop (lines 432-436): enumerate the joint targets and
record every target below -3.14 or above 3.14 (the hardcoded limits). -/
def jointErrors (targets : List ℚ) : List TwinError :=
  targets.enum.filterMap (fun p =>
    if p.2 < -(157 / 50) ∨ (157 / 50) < p.2 then some (TwinError.jointOutOfRange p.1 p.2)
    else none)

/-- test_command_sequence (lines 410-451): accumulate the declared durations and
the joint-limit errors over the command list, then check the total duration
against the expected one with 10 percent tolerance, and combine the flags. -/
def test_command_sequence (commands : List MotorCommand) (expected_duration_ms : ℚ) :
    ValidationResult :=
  let total_time : ℚ := (commands.map cmdDuration).sum
  let joint_errs : List TwinError :=
    commands.flatMap (fun cmd => jointErrors (cmd.joint_targets.getD []))
  let safety_valid : Bool := joint_errs.isEmpty
  let timing_bad : Bool :=
    decide (|total_time - expected_duration_ms| > expected_duration_ms * (1 / 10))
  { success := !timing_bad && safety_valid
    timing_valid := !timing_bad
    trajectory_valid := true
    safety_valid := safety_valid
    actual_duration_ms := total_time
    errors := joint_errs ++
      (if timing_bad then [TwinError.timingMismatch expected_duration_ms total_time] else []) }

/-- Result record of validate_motor_timing (lines 464-469). -/
structure TimingResult where
  valid : Bool
  target_period_ms : ℚ
  computation_time_ms : ℚ
  margin_ms : ℚ
deriving DecidableEq

/-- validate_motor_timing (lines 453-469): the control period is 1000/frequency
ms, the estimated computation time is the placeholder constant 2.0 ms. -/
def validate_motor_timing (target_frequency_hz : ℚ) : TimingResult :=
  let target_period_ms := 1000 / target_frequency_hz
  let computation_time_ms : ℚ := 2
  { valid := decide (computation_time_ms < target_period_ms)
    target_period_ms := target_period_ms
    computation_time_ms := computation_time_ms
    margin_ms := target_period_ms - computation_time_ms }

/-! ### Theorems -/

/-- C9: for every positive target control frequency, validate_motor_timing returns
valid = true exactly when the estimated computation time per command is strictly
below the control period 1000/frequency ms, and margin_ms is the control period
minus the estimated computation time. -/
theorem motor_timing_spec (f : ℚ) (hf : 0 < f) :
    ((validate_motor_timing f).valid = true ↔
      (validate_motor_timing f).computation_time_ms < 1000 / f) ∧
    (validate_motor_timing f).margin_ms =
      1000 / f - (validate_motor_timing f).computation_time_ms := by
  constructor
  · simp [validate_motor_timing]
  · rfl

/-- Witness for motor_timing_spec at the default 60 Hz frequency. -/
theorem motor_timing_spec_witness :
    (0 : ℚ) < 60 ∧
    ((((validate_motor_timing 60).valid = true ↔
        (validate_motor_timing 60).computation_time_ms < 1000 / 60) ∧
      (validate_motor_timing 60).margin_ms =
        1000 / 60 - (validate_motor_timing 60).computation_time_ms)) :=
  ⟨by norm_num, motor_timing_spec 60 (by norm_num)⟩

/-- C10: for every command sequence and expected duration, the result of
test_command_sequence has trajectory_valid = true (no code path sets it to
false), and success is determined by timing_valid and safety_valid alone. -/
theorem trajectory_valid_vacuous (commands : List MotorCommand) (expected : ℚ) :
    (test_command_sequence commands expected).trajectory_valid = true ∧
    (test_command_sequence commands expected).success =
      ((test_command_sequence commands expected).timing_valid &&
        (test_command_sequence commands expected).safety_valid) :=
  ⟨rfl, rfl⟩

/-- C4: test_command_sequence returns timing_valid = false exactly when the sum
of the declared per-command durations differs from the expected total duration by
more than 10 percent of it; timing_valid is a function of the durations and the
expected duration alone (so it is independent of safety_valid); success is true
exactly when both timing_valid and safety_valid hold; and the spec example of
1000 ms against an expected 900 ms yields timing_valid = false. -/
theorem timing_tolerance_spec (commands : List MotorCommand) (expected : ℚ) :
    ((test_command_sequence commands expected).timing_valid = false ↔
      |(commands.map cmdDuration).sum - expected| > expected * (1 / 10)) ∧
    (test_command_sequence commands expected).timing_valid =
      !(decide (|(commands.map cmdDuration).sum - expected| > expected * (1 / 10))) ∧
    (test_command_sequence commands expected).success =
      ((test_command_sequence commands expected).timing_valid &&
        (test_command_sequence commands expected).safety_valid) ∧
    (test_command_sequence [⟨some 1000, none⟩] 900).timing_valid = false := by
  refine ⟨?_, rfl, rfl, ?_⟩
  · simp [test_command_sequence]
  · norm_num [test_command_sequence, cmdDuration]

/-- C5: saving a checkpoint and loading it back into any trainer state restores
epoch, best_reward and total_steps exactly, and the restored policy state equals
the saved one, so any (deterministic) forward function produces identical
outputs on the same input batch; hence a trainer interrupted mid-epoch resumes
from the last checkpoint without loss of best-reward tracking or cumulative step
count. -/
theorem checkpoint_roundtrip {P O A B : Type} (f : P → A → B)
    (s t : TrainerState P O) (x : A) :
    (load_checkpoint t (save_checkpoint s)).epoch = s.epoch ∧
    (load_checkpoint t (save_checkpoint s)).best_reward = s.best_reward ∧
    (load_checkpoint t (save_checkpoint s)).total_steps = s.total_steps ∧
    f (load_checkpoint t (save_checkpoint s)).policy_state x = f s.policy_state x :=
  ⟨rfl, rfl, rfl, rfl⟩

/-- C1 counterexample: at clip_ratio 1/5, ratio 1000 (far above 1 + clip_ratio)
and advantage -1, the surrogate equals the UNCLIPPED branch surr1 = ratio *
advantage = -1000, differs from the clipped branch, and its magnitude exceeds
the clipped bound (1 + clip_ratio) * |advantage|; so the claim that every
far-outside ratio uses the clipped branch with bounded contribution is false. -/
theorem ppo_clip_counterexample :
    (1 : ℚ) + 1 / 5 < 1000 ∧
    surrogate (1 / 5) 1000 (-1) = surr1 1000 (-1) ∧
    surrogate (1 / 5) 1000 (-1) ≠ surr2 (1 / 5) 1000 (-1) ∧
    ¬ |surrogate (1 / 5) 1000 (-1)| ≤ (1 + 1 / 5) * |(-1 : ℚ)| := by
  norm_num [surrogate, surr1, surr2, clamp, min_def, max_def]

/-- C1 amended: the policy loss is the negative mean over the minibatch of
min(ratio * advantage, clamp(ratio, 1 - clip_ratio, 1 + clip_ratio) * advantage)
with ratio = exp(new_log_prob - old_log_prob); for every transition with
NONNEGATIVE advantage and ratio above 1 + clip_ratio the surrogate takes the
clipped branch and its magnitude is bounded by (1 + clip_ratio) * advantage;
but for negative advantage the unclipped branch is taken for every ratio above
1 + clip_ratio and the contribution magnitude is unbounded in the ratio. -/
theorem ppo_clip_amended (ex : ℚ → ℚ) (eps : ℚ) (nl ol advs : List ℚ)
    (r a M : ℚ) (heps : 0 ≤ eps) (ha : 0 ≤ a) (hr : 1 + eps < r) :
    policy_loss ex eps nl ol advs =
      -(mean (List.zipWith (fun rt adv =>
          min (rt * adv) (clamp rt (1 - eps) (1 + eps) * adv))
        (List.zipWith (fun n o => ex (n - o)) nl ol) advs)) ∧
    surrogate eps r a = clamp r (1 - eps) (1 + eps) * a ∧
    |surrogate eps r a| ≤ (1 + eps) * a ∧
    (∃ rr, 1 + eps < rr ∧ surrogate eps rr (-1) = rr * (-1) ∧
      surrogate eps rr (-1) < -M) := by
  have hclamp : clamp r (1 - eps) (1 + eps) = 1 + eps := by
    rw [clamp, max_eq_left (by linarith), min_eq_right (le_of_lt hr)]
  have hsur : surrogate eps r a = (1 + eps) * a := by
    rw [surrogate, surr1, surr2, hclamp]
    exact min_eq_right (mul_le_mul_of_nonneg_right (le_of_lt hr) ha)
  refine ⟨rfl, by rw [hsur, hclamp], ?_, ?_⟩
  · rw [hsur, abs_of_nonneg (mul_nonneg (by linarith) ha)]
  · refine ⟨max M (1 + eps) + 1, by
      have := le_max_right M (1 + eps); linarith, ?_, ?_⟩
    · have hgt : 1 + eps < max M (1 + eps) + 1 := by
        have := le_max_right M (1 + eps); linarith
      have hcl : clamp (max M (1 + eps) + 1) (1 - eps) (1 + eps) = 1 + eps := by
        rw [clamp, max_eq_left (by linarith), min_eq_right (le_of_lt hgt)]
      rw [surrogate, surr1, surr2, hcl]
      exact min_eq_left (by nlinarith [le_max_right M (1 + eps)])
    · have hM : M < max M (1 + eps) + 1 := by
        have := le_max_left M (1 + eps); linarith
      have hgt : 1 + eps < max M (1 + eps) + 1 := by
        have := le_max_right M (1 + eps); linarith
      have hcl : clamp (max M (1 + eps) + 1) (1 - eps) (1 + eps) = 1 + eps := by
        rw [clamp, max_eq_left (by linarith), min_eq_right (le_of_lt hgt)]
      rw [surrogate, surr1, surr2, hcl]
      have : (max M (1 + eps) + 1) * (-1) < -M := by nlinarith
      calc min ((max M (1 + eps) + 1) * (-1)) ((1 + eps) * (-1))
          ≤ (max M (1 + eps) + 1) * (-1) := min_le_left _ _
        _ < -M := this

/-- Witness for ppo_clip_amended at concrete inputs. -/
theorem ppo_clip_amended_witness :
    policy_loss id (1 / 5) [0] [0] [1] =
      -(mean (List.zipWith (fun rt adv =>
          min (rt * adv) (clamp rt (1 - 1 / 5) (1 + 1 / 5) * adv))
        (List.zipWith (fun n o => id (n - o)) [0] [0]) [1])) ∧
    surrogate (1 / 5) 2 1 = clamp 2 (1 - 1 / 5) (1 + 1 / 5) * 1 ∧
    |surrogate (1 / 5) 2 1| ≤ (1 + 1 / 5) * 1 ∧
    (∃ rr, 1 + 1 / 5 < rr ∧ surrogate (1 / 5) rr (-1) = rr * (-1) ∧
      surrogate (1 / 5) rr (-1) < -7) :=
  ppo_clip_amended id (1 / 5) [0] [0] [1] 2 1 7 (by norm_num) (by norm_num)
    (by norm_num)

/-- C3: if any command in the sequence carries a joint target outside the
joint safety range enforced by the code (low = -3.14, high = 3.14, the limits
the spec example instantiates), then the returned result has
safety_valid = false and success = false unconditionally (whatever the timing
outcome), and the errors list contains an entry naming the offending joint
index and its value. -/
theorem safety_violation_fatal (commands : List MotorCommand) (expected : ℚ)
    (cmd : MotorCommand) (ts : List ℚ) (j : ℕ) (target : ℚ)
    (hc : cmd ∈ commands) (hts : cmd.joint_targets = some ts)
    (hj : (j, target) ∈ ts.enum)
    (hout : target < -(157 / 50) ∨ (157 / 50) < target) :
    (test_command_sequence commands expected).safety_valid = false ∧
    (test_command_sequence commands expected).success = false ∧
    TwinError.jointOutOfRange j target ∈
      (test_command_sequence commands expected).errors := by
  have hmem : TwinError.jointOutOfRange j target ∈
      commands.flatMap (fun c => jointErrors (c.joint_targets.getD [])) := by
    refine List.mem_flatMap.mpr ⟨cmd, hc, ?_⟩
    rw [hts]
    exact List.mem_filterMap.mpr ⟨(j, target), hj, by rw [if_pos hout]⟩
  have hne : commands.flatMap (fun c => jointErrors (c.joint_targets.getD [])) ≠ [] :=
    List.ne_nil_of_mem hmem
  have hsafety : (test_command_sequence commands expected).safety_valid = false := by
    simp only [test_command_sequence]
    simpa [List.isEmpty_iff] using hne
  refine ⟨hsafety, ?_, ?_⟩
  · have : (test_command_sequence commands expected).success =
        ((test_command_sequence commands expected).timing_valid &&
          (test_command_sequence commands expected).safety_valid) := rfl
    rw [this, hsafety, Bool.and_false]
  · simp only [test_command_sequence]
    exact List.mem_append_left _ hmem

/-- Witness for safety_violation_fatal: a single command with one joint target
of 10.0 against the 3.14 limit. -/
theorem safety_violation_fatal_witness :
    (test_command_sequence [⟨some 100, some [10]⟩] 100).safety_valid = false ∧
    (test_command_sequence [⟨some 100, some [10]⟩] 100).success = false ∧
    TwinError.jointOutOfRange 0 10 ∈
      (test_command_sequence [⟨some 100, some [10]⟩] 100).errors :=
  safety_violation_fatal [⟨some 100, some [10]⟩] 100 ⟨some 100, some [10]⟩
    [10] 0 10 (by simp) rfl (by simp [List.enum]) (by norm_num)

/-- C6 counterexample: with num_envs = 1, steps_per_epoch = 3 and
batch_size = 2 the batch size does not divide the buffer size 1 * 3, yet the
code reports no error before training: the rollout is collected (three buffer
entries) and the minibatch loop still processes two index slices, the second a
partial one; so the claim that such a configuration is fatal at startup, with
no rollout collected and no optimizer step applied, is false. -/
theorem batch_divisibility_counterexample :
    ¬ (2 ∣ 1 * 3) ∧
    minibatch_slices (1 * 3) 2 = [(0, 2), (2, 3)] ∧
    minibatch_slices (1 * 3) 2 ≠ [] ∧
    (collect_rollout testPolicy testEnv 3 emptyBuffers).obs_buffer.length = 3 :=
  ⟨by decide, by decide, by decide, rfl⟩

/-- C6 amended: there is no startup divisibility check; when batch_size does
not divide N = num_envs * steps_per_epoch (batch_size positive), update_policy
still processes floor(N / batch_size) + 1 minibatch index slices (so at least
one optimizer step runs), the last slice starting at batch_size * floor and
ending at N with positive size N mod batch_size smaller than batch_size, and
the stats divisor num_batches = floor(N / batch_size) is zero (a runtime
ZeroDivisionError after the optimizer pass) exactly when N < batch_size. -/
theorem batch_divisibility_amended (num_envs steps batch_size : ℕ)
    (hbs : 0 < batch_size) (hnd : ¬ batch_size ∣ num_envs * steps) :
    (minibatch_slices (num_envs * steps) batch_size).length =
      num_batches (num_envs * steps) batch_size + 1 ∧
    minibatch_slices (num_envs * steps) batch_size ≠ [] ∧
    (minibatch_slices (num_envs * steps)
        batch_size)[num_batches (num_envs * steps) batch_size]? =
      some (num_batches (num_envs * steps) batch_size * batch_size,
        num_envs * steps) ∧
    num_envs * steps - num_batches (num_envs * steps) batch_size * batch_size =
      num_envs * steps % batch_size ∧
    0 < num_envs * steps % batch_size ∧
    num_envs * steps % batch_size < batch_size ∧
    (num_batches (num_envs * steps) batch_size = 0 ↔
      num_envs * steps < batch_size) := by
  set N := num_envs * steps with hN
  have hr0 : N % batch_size ≠ 0 := fun h => hnd (Nat.dvd_of_mod_eq_zero h)
  have hrlt : N % batch_size < batch_size := Nat.mod_lt _ hbs
  have hdm : batch_size * (N / batch_size) + N % batch_size = N :=
    Nat.div_add_mod N batch_size
  have hqbs : N / batch_size * batch_size + N % batch_size = N := by
    rw [Nat.mul_comm] at hdm; exact hdm
  have key : (N + batch_size - 1) / batch_size = N / batch_size + 1 := by
    have h1 : N + batch_size - 1 =
        batch_size * (N / batch_size) + (N % batch_size - 1 + batch_size) := by
      omega
    rw [h1, Nat.mul_add_div hbs, Nat.add_div_right _ hbs,
      Nat.div_eq_of_lt (show N % batch_size - 1 < batch_size by omega)]
  refine ⟨?_, ?_, ?_, by rw [num_batches]; omega,
    Nat.pos_of_ne_zero hr0, hrlt, ?_⟩
  · simp [minibatch_slices, minibatch_starts, key, num_batches]
  · have hlen : (minibatch_slices N batch_size).length ≠ 0 := by
      simp [minibatch_slices, minibatch_starts, key]
    exact fun h => hlen (by simp [h])
  · have hq : N / batch_size < (N + batch_size - 1) / batch_size := by
      rw [key]; omega
    have hstart : (minibatch_starts N batch_size)[N / batch_size]? =
        some (N / batch_size * batch_size) := by
      rw [minibatch_starts, List.getElem?_map, List.getElem?_range hq]
      rfl
    have hmin : min (N / batch_size * batch_size + batch_size) N = N :=
      Nat.min_eq_right (by omega)
    rw [num_batches, minibatch_slices, List.getElem?_map, hstart]
    simp [hmin]
  · rw [num_batches]
    exact Nat.div_eq_zero_iff hbs

/-- Witness for batch_divisibility_amended at num_envs = 1, steps = 3,
batch_size = 2. -/
theorem batch_divisibility_amended_witness :
    (minibatch_slices (1 * 3) 2).length = num_batches (1 * 3) 2 + 1 ∧
    minibatch_slices (1 * 3) 2 ≠ [] ∧
    (minibatch_slices (1 * 3) 2)[num_batches (1 * 3) 2]? =
      some (num_batches (1 * 3) 2 * 2, 1 * 3) ∧
    1 * 3 - num_batches (1 * 3) 2 * 2 = 1 * 3 % 2 ∧
    0 < 1 * 3 % 2 ∧
    1 * 3 % 2 < 2 ∧
    (num_batches (1 * 3) 2 = 0 ↔ 1 * 3 < 2) :=
  batch_divisibility_amended 1 3 2 (by decide) (by decide)

/-- Sum of a pointwise division is the division of the sum. -/
theorem sum_map_div (xs : List ℚ) (g : ℚ → ℚ) (c : ℚ) :
    (xs.map (fun x => g x / c)).sum = (xs.map g).sum / c := by
  induction xs with
  | nil => simp
  | cons a l ih => simp [ih, div_add_div_same]

/-- Sum of a pointwise subtraction of a constant. -/
theorem sum_map_sub_const (xs : List ℚ) (m : ℚ) :
    (xs.map (fun x => x - m)).sum = xs.sum - xs.length * m := by
  induction xs with
  | nil => simp
  | cons a l ih =>
    simp only [List.map_cons, List.sum_cons, List.length_cons, ih]
    push_cast
    ring

/-- The normalized advantage batch has mean exactly zero. -/
theorem mean_normalize_eq_zero (advs : List ℚ) (std : ℚ) (h : advs ≠ []) :
    mean (normalize_advantages advs std) = 0 := by
  have hn : (advs.length : ℚ) ≠ 0 :=
    Nat.cast_ne_zero.mpr (Nat.pos_iff_ne_zero.mp (List.length_pos.mpr h))
  have hsum : (normalize_advantages advs std).sum = 0 := by
    have h1 : (normalize_advantages advs std).sum =
        (advs.sum - (advs.length : ℚ) * mean advs) / (std + stdEps) := by
      simp only [normalize_advantages, sum_map_div, sum_map_sub_const]
    rw [h1, mean]
    rw [mul_div_assoc']
    rw [mul_comm, mul_div_assoc, div_self hn, mul_one, sub_self, zero_div]
  rw [mean, hsum, zero_div]

/-- The normalized advantage batch's sample variance is the original one scaled
by the squared denominator. -/
theorem sampleVar_normalize (advs : List ℚ) (std : ℚ) (h : advs ≠ []) :
    sampleVar (normalize_advantages advs std) =
      sampleVar advs / (std + stdEps) ^ 2 := by
  have hmean := mean_normalize_eq_zero advs std h
  rw [sampleVar, hmean]
  have h1 : (normalize_advantages advs std).map (fun x => (x - 0) ^ 2) =
      advs.map (fun a => ((a - mean advs) ^ 2) / (std + stdEps) ^ 2) := by
    rw [normalize_advantages, List.map_map]
    refine List.map_congr_left ?_
    intro a _
    simp [Function.comp, div_pow]
  rw [h1, sum_map_div, normalize_advantages, List.length_map]
  rw [sampleVar, div_div, div_div, mul_comm]

/-- C8: for an advantage batch with at least two elements and nonzero variance
(std is the positive square root of the unbiased sample variance, as computed by
torch.std), the normalization of update_policy yields a batch with mean exactly
0 and standard deviation std/(std + 1e-8), i.e. within 1e-8/std of 1; and the
epsilon guard keeps the division well defined for a zero-variance (constant)
batch, which normalizes to the all-zero batch. -/
theorem advantage_normalization (advs : List ℚ) (std c : ℚ) (n : ℕ)
    (hlen : 2 ≤ advs.length) (hstd : 0 < std) (hsq : std * std = sampleVar advs) :
    mean (normalize_advantages advs std) = 0 ∧
    sampleVar (normalize_advantages advs std) = (std / (std + stdEps)) ^ 2 ∧
    |std / (std + stdEps) - 1| ≤ stdEps / std ∧
    normalize_advantages (List.replicate n c) 0 = List.replicate n 0 := by
  have hne : advs ≠ [] := by
    intro hnil
    rw [hnil] at hlen
    simp at hlen
  have heps : (0 : ℚ) < stdEps := by norm_num [stdEps]
  have hd : (0 : ℚ) < std + stdEps := by linarith
  refine ⟨mean_normalize_eq_zero advs std hne, ?_, ?_, ?_⟩
  · rw [sampleVar_normalize advs std hne, ← hsq, div_pow]
    ring
  · have h1 : std / (std + stdEps) - 1 = -(stdEps / (std + stdEps)) := by
      field_simp
    rw [h1, abs_neg, abs_of_pos (div_pos heps hd)]
    gcongr
    linarith
  · cases n with
    | zero => simp [normalize_advantages]
    | succ k =>
      have hm : mean (List.replicate (k + 1) c) = c := by
        rw [mean, List.sum_replicate, List.length_replicate, nsmul_eq_mul]
        exact mul_div_cancel_left₀ _ (Nat.cast_ne_zero.mpr (Nat.succ_ne_zero k))
      rw [normalize_advantages, hm, List.map_replicate]
      simp

/-- Witness for advantage_normalization on the batch [0, 2, 4], whose unbiased
sample variance is 4 with rational square root 2. -/
theorem advantage_normalization_witness :
    mean (normalize_advantages [0, 2, 4] 2) = 0 ∧
    sampleVar (normalize_advantages [0, 2, 4] 2) = (2 / (2 + stdEps)) ^ 2 ∧
    |2 / (2 + stdEps) - 1| ≤ stdEps / 2 ∧
    normalize_advantages (List.replicate 2 7) 0 = List.replicate 2 0 :=
  advantage_normalization [0, 2, 4] 2 7 2 (by norm_num) (by norm_num)
    (by norm_num [sampleVar, mean])

/-- Unfolding of one collection step. -/
theorem collect_loop_succ (pol : PolicyFns) (env : EnvFns) (n t : ℕ)
    (obs : List ℚ) (b : RolloutBuffers) :
    collect_loop pol env (n + 1) t obs b =
      collect_loop pol env n (t + 1) (env.step t (pol.act obs)).1
        { obs_buffer := b.obs_buffer ++ [obs]
          actions_buffer := b.actions_buffer ++ [pol.act obs]
          rewards_buffer := b.rewards_buffer ++ [(env.step t (pol.act obs)).2.1]
          values_buffer := b.values_buffer ++ [pol.value obs]
          log_probs_buffer := b.log_probs_buffer ++ [pol.log_prob obs]
          dones_buffer := b.dones_buffer ++ [(env.step t (pol.act obs)).2.2] } :=
  rfl

/-- Each collected step grows each of the six buffers by exactly one entry. -/
theorem collect_loop_lengths (pol : PolicyFns) (env : EnvFns) (n : ℕ) :
    ∀ (t : ℕ) (obs : List ℚ) (b : RolloutBuffers),
      (collect_loop pol env n t obs b).obs_buffer.length =
        b.obs_buffer.length + n ∧
      (collect_loop pol env n t obs b).actions_buffer.length =
        b.actions_buffer.length + n ∧
      (collect_loop pol env n t obs b).rewards_buffer.length =
        b.rewards_buffer.length + n ∧
      (collect_loop pol env n t obs b).values_buffer.length =
        b.values_buffer.length + n ∧
      (collect_loop pol env n t obs b).log_probs_buffer.length =
        b.log_probs_buffer.length + n ∧
      (collect_loop pol env n t obs b).dones_buffer.length =
        b.dones_buffer.length + n := by
  induction n with
  | zero =>
    intro t obs b
    simp [collect_loop]
  | succ n ih =>
    intro t obs b
    rw [collect_loop_succ]
    obtain ⟨h1, h2, h3, h4, h5, h6⟩ := ih (t + 1) (env.step t (pol.act obs)).1
      { obs_buffer := b.obs_buffer ++ [obs]
        actions_buffer := b.actions_buffer ++ [pol.act obs]
        rewards_buffer := b.rewards_buffer ++ [(env.step t (pol.act obs)).2.1]
        values_buffer := b.values_buffer ++ [pol.value obs]
        log_probs_buffer := b.log_probs_buffer ++ [pol.log_prob obs]
        dones_buffer := b.dones_buffer ++ [(env.step t (pol.act obs)).2.2] }
    refine ⟨?_, ?_, ?_, ?_, ?_, ?_⟩ <;>
      simp_all [List.length_append] <;> omega

/-- Every entry a collection loop adds to a buffer covers exactly k environment
instances, provided the policy and the environment produce k-sized batches. -/
theorem collect_loop_entries (pol : PolicyFns) (env : EnvFns) (k : ℕ)
    (hstep : ∀ i a, ((env.step i a).1.length = k) ∧
      ((env.step i a).2.1.length = k) ∧ ((env.step i a).2.2.length = k))
    (hpol : ∀ o, o.length = k → (pol.act o).length = k ∧
      (pol.log_prob o).length = k ∧ (pol.value o).length = k)
    (n : ℕ) :
    ∀ (t : ℕ) (obs : List ℚ) (b : RolloutBuffers), obs.length = k →
      (∀ x ∈ (collect_loop pol env n t obs b).obs_buffer,
        x ∈ b.obs_buffer ∨ x.length = k) ∧
      (∀ x ∈ (collect_loop pol env n t obs b).actions_buffer,
        x ∈ b.actions_buffer ∨ x.length = k) ∧
      (∀ x ∈ (collect_loop pol env n t obs b).rewards_buffer,
        x ∈ b.rewards_buffer ∨ x.length = k) ∧
      (∀ x ∈ (collect_loop pol env n t obs b).values_buffer,
        x ∈ b.values_buffer ∨ x.length = k) ∧
      (∀ x ∈ (collect_loop pol env n t obs b).log_probs_buffer,
        x ∈ b.log_probs_buffer ∨ x.length = k) ∧
      (∀ x ∈ (collect_loop pol env n t obs b).dones_buffer,
        x ∈ b.dones_buffer ∨ x.length = k) := by
  induction n with
  | zero =>
    intro t obs b hobs
    simp only [collect_loop]
    exact ⟨fun x hx => Or.inl hx, fun x hx => Or.inl hx, fun x hx => Or.inl hx,
      fun x hx => Or.inl hx, fun x hx => Or.inl hx, fun x hx => Or.inl hx⟩
  | succ n ih =>
    intro t obs b hobs
    rw [collect_loop_succ]
    obtain ⟨hact, hlp, hval⟩ := hpol obs hobs
    obtain ⟨hso, hsr, hsd⟩ := hstep t (pol.act obs)
    obtain ⟨i1, i2, i3, i4, i5, i6⟩ := ih (t + 1) (env.step t (pol.act obs)).1
      { obs_buffer := b.obs_buffer ++ [obs]
        actions_buffer := b.actions_buffer ++ [pol.act obs]
        rewards_buffer := b.rewards_buffer ++ [(env.step t (pol.act obs)).2.1]
        values_buffer := b.values_buffer ++ [pol.value obs]
        log_probs_buffer := b.log_probs_buffer ++ [pol.log_prob obs]
        dones_buffer := b.dones_buffer ++ [(env.step t (pol.act obs)).2.2] }
      hso
    refine ⟨?_, ?_, ?_, ?_, ?_, ?_⟩
    · intro x hx
      rcases i1 x hx with h | h
      · rcases List.mem_append.mp h with h' | h'
        · exact Or.inl h'
        · right; rw [List.mem_singleton.mp h']; exact hobs
      · exact Or.inr h
    · intro x hx
      rcases i2 x hx with h | h
      · rcases List.mem_append.mp h with h' | h'
        · exact Or.inl h'
        · right; rw [List.mem_singleton.mp h']; exact hact
      · exact Or.inr h
    · intro x hx
      rcases i3 x hx with h | h
      · rcases List.mem_append.mp h with h' | h'
        · exact Or.inl h'
        · right; rw [List.mem_singleton.mp h']; exact hsr
      · exact Or.inr h
    · intro x hx
      rcases i4 x hx with h | h
      · rcases List.mem_append.mp h with h' | h'
        · exact Or.inl h'
        · right; rw [List.mem_singleton.mp h']; exact hval
      · exact Or.inr h
    · intro x hx
      rcases i5 x hx with h | h
      · rcases List.mem_append.mp h with h' | h'
        · exact Or.inl h'
        · right; rw [List.mem_singleton.mp h']; exact hlp
      · exact Or.inr h
    · intro x hx
      rcases i6 x hx with h | h
      · rcases List.mem_append.mp h with h' | h'
        · exact Or.inl h'
        · right; rw [List.mem_singleton.mp h']; exact hsd
      · exact Or.inr h

/-- Summing the entry sizes of a list whose entries all have size k. -/
theorem sum_map_length_const {α : Type} (l : List (List α)) (k : ℕ)
    (h : ∀ x ∈ l, x.length = k) : (l.map List.length).sum = k * l.length := by
  induction l with
  | nil => simp
  | cons a tl ih =>
    simp only [List.map_cons, List.sum_cons, List.length_cons]
    rw [h a (List.mem_cons_self a tl), ih (fun x hx => h x (List.mem_cons_of_mem a hx))]
    ring

/-- C7: starting from the empty buffers (their state at construction and after
every optimizer pass), collect_rollout run for a given number of steps leaves
each of the six transition buffers with exactly that many entries, each entry
covering all num_envs environment instances, so the flattened buffer holds
num_envs * steps transitions; and the clearing at the end of update_policy
empties (does not resize) every buffer. -/
theorem rollout_buffer_invariant (num_envs steps : ℕ) (pol : PolicyFns)
    (env : EnvFns) (b : RolloutBuffers)
    (hreset : env.reset.length = num_envs)
    (hstep : ∀ i a, ((env.step i a).1.length = num_envs) ∧
      ((env.step i a).2.1.length = num_envs) ∧
      ((env.step i a).2.2.length = num_envs))
    (hpol : ∀ o, o.length = num_envs → (pol.act o).length = num_envs ∧
      (pol.log_prob o).length = num_envs ∧ (pol.value o).length = num_envs) :
    bufferLengths (collect_rollout pol env steps emptyBuffers) steps ∧
    entriesCover (collect_rollout pol env steps emptyBuffers) num_envs ∧
    ((collect_rollout pol env steps emptyBuffers).obs_buffer.map List.length).sum =
      num_envs * steps ∧
    clearedBuffers (clear_buffers b) := by
  obtain ⟨l1, l2, l3, l4, l5, l6⟩ :=
    collect_loop_lengths pol env steps 0 env.reset emptyBuffers
  obtain ⟨e1, e2, e3, e4, e5, e6⟩ :=
    collect_loop_entries pol env num_envs hstep hpol steps 0 env.reset
      emptyBuffers hreset
  have hcov : entriesCover (collect_rollout pol env steps emptyBuffers) num_envs := by
    refine ⟨fun x hx => ?_, fun x hx => ?_, fun x hx => ?_, fun x hx => ?_,
      fun x hx => ?_, fun x hx => ?_⟩
    · rcases e1 x hx with h | h
      · exact absurd h (List.not_mem_nil x)
      · exact h
    · rcases e2 x hx with h | h
      · exact absurd h (List.not_mem_nil x)
      · exact h
    · rcases e3 x hx with h | h
      · exact absurd h (List.not_mem_nil x)
      · exact h
    · rcases e4 x hx with h | h
      · exact absurd h (List.not_mem_nil x)
      · exact h
    · rcases e5 x hx with h | h
      · exact absurd h (List.not_mem_nil x)
      · exact h
    · rcases e6 x hx with h | h
      · exact absurd h (List.not_mem_nil x)
      · exact h
  have hlen : bufferLengths (collect_rollout pol env steps emptyBuffers) steps := by
    refine ⟨?_, ?_, ?_, ?_, ?_, ?_⟩ <;>
      simp_all [collect_rollout, emptyBuffers]
  refine ⟨hlen, hcov, ?_, rfl, rfl, rfl, rfl, rfl, rfl⟩
  rw [sum_map_length_const _ num_envs hcov.1, hlen.1]

/-- Witness for rollout_buffer_invariant: one environment instance, three
steps, identity policy, constant environment. -/
theorem rollout_buffer_invariant_witness :
    bufferLengths (collect_rollout testPolicy testEnv 3 emptyBuffers) 3 ∧
    entriesCover (collect_rollout testPolicy testEnv 3 emptyBuffers) 1 ∧
    ((collect_rollout testPolicy testEnv 3 emptyBuffers).obs_buffer.map
      List.length).sum = 1 * 3 ∧
    clearedBuffers (clear_buffers emptyBuffers) :=
  rollout_buffer_invariant 1 3 testPolicy testEnv emptyBuffers rfl
    (fun _ _ => ⟨rfl, rfl, rfl⟩) (fun _ h => ⟨h, h, h⟩)

/-- The gae accumulator returned by gaeAux is the head of its advantage list
(or the initial 0 when no steps remain). -/
theorem gaeAux_gae_eq_head (gamma lam last_value : ℚ) (rs vs : List ℚ)
    (ds : List Bool) :
    (gaeAux gamma lam last_value rs vs ds).2.2.1 =
      (gaeAux gamma lam last_value rs vs ds).1.getD 0 0 := by
  cases rs <;> cases vs <;> cases ds <;> simp [gaeAux]

/-- The next_value returned by gaeAux is the first stored value of the
remaining steps (or the bootstrap last_value when no steps remain). -/
theorem gaeAux_next_value (gamma lam last_value : ℚ) (rs vs : List ℚ)
    (ds : List Bool) (hv : vs.length = rs.length) (hd : ds.length = rs.length) :
    (gaeAux gamma lam last_value rs vs ds).2.2.2 =
      if 0 < rs.length then vs.getD 0 0 else last_value := by
  cases rs <;> cases vs <;> cases ds <;> simp_all [gaeAux]

/-- Index form of the GAE recursion computed by gaeAux. -/
theorem gaeAux_getD (gamma lam last_value : ℚ) (rewards : List ℚ) :
    ∀ (values : List ℚ) (dones : List Bool) (t : ℕ),
      values.length = rewards.length → dones.length = rewards.length →
      t < rewards.length →
      ((gaeAux gamma lam last_value rewards values dones).1.getD t 0 =
        (rewards.getD t 0 +
          gamma * (if t + 1 < rewards.length then values.getD (t + 1) 0
            else last_value) *
            (1 - (if dones.getD t false then 1 else 0)) -
          values.getD t 0) +
        gamma * lam * (1 - (if dones.getD t false then 1 else 0)) *
          ((gaeAux gamma lam last_value rewards values dones).1.getD (t + 1) 0)) ∧
      ((gaeAux gamma lam last_value rewards values dones).2.1.getD t 0 =
        (gaeAux gamma lam last_value rewards values dones).1.getD t 0 +
          values.getD t 0) := by
  induction rewards with
  | nil =>
    intro values dones t hv hd ht
    exact absurd ht (by simp)
  | cons r rs ih =>
    intro values dones t hv hd ht
    cases values with
    | nil => simp at hv
    | cons v vs =>
      cases dones with
      | nil => simp at hd
      | cons d ds =>
        have hv' : vs.length = rs.length := by simpa using hv
        have hd' : ds.length = rs.length := by simpa using hd
        cases t with
        | zero =>
          constructor
          · simp only [gaeAux, List.getD_cons_zero, List.getD_cons_succ,
              List.length_cons, Nat.add_lt_add_iff_right]
            rw [gaeAux_gae_eq_head, gaeAux_next_value gamma lam last_value rs vs ds hv' hd']
          · simp [gaeAux]
        | succ t' =>
          have ht' : t' < rs.length := by simpa using ht
          obtain ⟨ih1, ih2⟩ := ih vs ds t' hv' hd' ht'
          constructor
          · simpa only [gaeAux, List.getD_cons_succ, List.length_cons,
              Nat.add_lt_add_iff_right] using ih1
          · simpa only [gaeAux, List.getD_cons_succ] using ih2

/-- C2: compute_gae satisfies, at every step index t, the backward recursion
advantage[t] = delta[t] + gamma * lambda * mask[t] * advantage[t+1] with
mask[t] = 1 - done[t] and
delta[t] = reward[t] + gamma * next_value * mask[t] - value[t], where
next_value is value[t+1] for interior steps and the bootstrap last_value at the
final step, and return[t] = advantage[t] + value[t]; in particular a
single-step single-environment episode with done = true has advantage
reward - value (and return reward). -/
theorem compute_gae_spec (gamma lam last_value r v : ℚ)
    (rewards values : List ℚ) (dones : List Bool) (t : ℕ)
    (hv : values.length = rewards.length) (hd : dones.length = rewards.length)
    (ht : t < rewards.length) :
    ((compute_gae gamma lam rewards values dones last_value).1.getD t 0 =
        (rewards.getD t 0 +
          gamma * (if t + 1 < rewards.length then values.getD (t + 1) 0
            else last_value) *
            (1 - (if dones.getD t false then 1 else 0)) -
          values.getD t 0) +
        gamma * lam * (1 - (if dones.getD t false then 1 else 0)) *
          ((compute_gae gamma lam rewards values dones last_value).1.getD (t + 1) 0) ∧
      (compute_gae gamma lam rewards values dones last_value).2.getD t 0 =
        (compute_gae gamma lam rewards values dones last_value).1.getD t 0 +
          values.getD t 0) ∧
    compute_gae gamma lam [r] [v] [true] last_value = ([r - v], [r]) := by
  refine ⟨gaeAux_getD gamma lam last_value rewards values dones t hv hd ht, ?_⟩
  norm_num [compute_gae, gaeAux]

/-- Witness for compute_gae_spec on a concrete two-step buffer at index 0. -/
theorem compute_gae_spec_witness :
    ((compute_gae (1/2) (1/2) [1, 2] [3, 4] [false, true] 5).1.getD 0 0 =
        ([1, 2].getD 0 0 +
          (1/2) * (if 0 + 1 < [1, 2].length then [3, 4].getD (0 + 1) 0
            else 5) *
            (1 - (if [false, true].getD 0 false then 1 else 0)) -
          [3, 4].getD 0 0) +
        (1/2) * (1/2) * (1 - (if [false, true].getD 0 false then 1 else 0)) *
          ((compute_gae (1/2) (1/2) [1, 2] [3, 4] [false, true] 5).1.getD (0 + 1) 0) ∧
      (compute_gae (1/2) (1/2) [1, 2] [3, 4] [false, true] 5).2.getD 0 0 =
        (compute_gae (1/2) (1/2) [1, 2] [3, 4] [false, true] 5).1.getD 0 0 +
          [3, 4].getD 0 0) ∧
    compute_gae (1/2) (1/2) [1] [3] [true] 5 = ([1 - 3], [1]) :=
  compute_gae_spec (1/2) (1/2) 5 1 3 [1, 2] [3, 4] [false, true] 0 rfl rfl
    (by norm_num)

end IsaacLab
